import Mathlib

/-!
Shallow embedding of the `DoublesidedMaxwell` distribution
(`tensorflow_probability/python/distributions/doublesided_maxwell.py`).

Tensors are modelled as a shape (list of dimension sizes) together with a
value function on (multi-)indices; elementwise binary operations broadcast
their operands with the standard trailing-dimension (NumPy/TF) rule.
Floating point arithmetic is idealized over the reals; `tf.math.log` is
modelled with values in `EReal`, so that `log 0 = -infinity` is captured
(this is the behaviour the code relies on at `x = loc`).
-/

/-- A tensor shape: the list of dimension sizes, outermost first. -/
abbrev Shape := List Nat

/-- Broadcast two dimension sizes (the NumPy/TF rule): equal sizes
broadcast to themselves, a size of 1 stretches to the other size, and
anything else is an error. -/
def broadcastDim (a b : Nat) : Option Nat :=
  if a = b then some a
  else if a = 1 then some b
  else if b = 1 then some a
  else none

/-- Broadcast two shapes given in reversed (trailing-dimension-first)
order; a missing leading dimension behaves like a dimension of size 1. -/
def broadcastRevShapes : List Nat → List Nat → Option (List Nat)
  | [], t => some t
  | a :: s, [] => some (a :: s)
  | a :: s, b :: t =>
    match broadcastDim a b, broadcastRevShapes s t with
    | some d, some r => some (d :: r)
    | _, _ => none

/-- Broadcast two shapes with the standard trailing-dimension rule
(`tf.broadcast_static_shape` / `tf.broadcast_dynamic_shape`);
`none` means the shapes are incompatible. -/
def broadcastShapes (s t : Shape) : Option Shape :=
  (broadcastRevShapes s.reverse t.reverse).map List.reverse

/-- Project an index of a broadcast result shape back onto an operand
shape, both given in reversed (trailing-dimension-first) order: a
dimension of size 1 in the operand always reads position 0, and leading
dimensions absent from the operand are dropped. -/
def projRev : List Nat → List Nat → List Nat
  | [], _ => []
  | _ :: s, [] => 0 :: projRev s []
  | d :: s, i :: is => (if d = 1 then 0 else i) :: projRev s is

/-- Bounds check of a reversed index against a reversed shape. -/
def validIdxRev : List Nat → List Nat → Bool
  | [], [] => true
  | i :: is, d :: ds => decide (i < d) && validIdxRev is ds
  | _, _ => false

/-- Bounds check of an index against a shape (standard order). -/
def validIdx (idx : List Nat) (s : Shape) : Bool :=
  validIdxRev idx.reverse s.reverse

/-- A tensor: a shape together with the value stored at each index.
Values at out-of-bounds indices are irrelevant junk. -/
@[ext]
structure Tensor (α : Type) where
  shape : Shape
  val : List Nat → α

/-- A scalar (rank-0) tensor. -/
def Tensor.scalar {α : Type} (c : α) : Tensor α := ⟨[], fun _ => c⟩

/-- Read a tensor at an index of a (larger) broadcast shape: the index is
projected back onto the tensor's own shape. -/
def Tensor.readB {α : Type} (t : Tensor α) (idx : List Nat) : α :=
  t.val ((projRev t.shape.reverse idx.reverse).reverse)

/-- Elementwise binary operation with broadcasting (models TF binary ops
such as `+`, `-`, `*`, `/`). On incompatible shapes TF raises; here the
shape field degenerates to `[]`, and theorems guard compatibility. -/
def Tensor.binOp {α : Type} (f : α → α → α) (a b : Tensor α) : Tensor α :=
  { shape := (broadcastShapes a.shape b.shape).getD []
  , val := fun idx => f (a.readB idx) (b.readB idx) }

/-- Elementwise unary operation (models TF elementwise unary ops). -/
def Tensor.map {α β : Type} (f : α → β) (t : Tensor α) : Tensor β :=
  { shape := t.shape, val := fun idx => f (t.val idx) }

/-- Models `tf.square`. -/
def Tensor.square (t : Tensor ℝ) : Tensor ℝ := t.map (fun v => v * v)

/-- Models `tf.ones_like`. -/
def ones_like {α : Type} [One α] (t : Tensor α) : Tensor α :=
  ⟨t.shape, fun _ => 1⟩

/-- Models `tf.norm(..., axis=-1)`: the Euclidean norm reducing the last
axis. -/
noncomputable def Tensor.normLastAxis (t : Tensor ℝ) : Tensor ℝ :=
  { shape := t.shape.dropLast
  , val := fun idx =>
      Real.sqrt (((List.range (t.shape.getLastD 0)).map
        (fun k => t.val (idx ++ [k]) ^ 2)).sum) }

/-- A rank-1 tensor holding the given list of reals (used for concrete
instances). -/
def vec (xs : List ℝ) : Tensor ℝ :=
  ⟨[xs.length], fun idx => xs.getD (idx.headD 0) 0⟩

/-- Models `tf.math.log` on floats, valued in `EReal` so that
`log 0 = -infinity` is represented faithfully. -/
noncomputable def elog (x : ℝ) : EReal :=
  if x = 0 then ⊥ else ((Real.log x : ℝ) : EReal)

/-! The embedded methods of `DoublesidedMaxwell`. The distribution's
state is its two parameter tensors `loc` and `scale`, passed explicitly. -/

/-- Embeds `DoublesidedMaxwell._z`: standardize `x` via
`(x - loc) / scale`. -/
noncomputable def _z (loc scale x : Tensor ℝ) : Tensor ℝ :=
  Tensor.binOp (· / ·) (Tensor.binOp (· - ·) x loc) scale

/-- Embeds `DoublesidedMaxwell._log_prob`:
`square_z = square(z)`; `log_unnormalized_prob = -0.5*square_z + log(square_z)`;
`log_normalization = 0.5*log(2*pi) + log(scale)`; result is their
difference. The two float additions that involve a logarithm are carried
out in `EReal`. -/
noncomputable def _log_prob (loc scale x : Tensor ℝ) : Tensor EReal :=
  let z := _z loc scale x
  let square_z := Tensor.square z
  let log_unnormalized_prob :=
    Tensor.binOp (· + ·)
      (square_z.map (fun v => ((-0.5 * v : ℝ) : EReal)))
      (square_z.map elog)
  let log_normalization :=
    Tensor.binOp (· + ·)
      (Tensor.scalar ((0.5 * Real.log (2 * Real.pi) : ℝ) : EReal))
      (scale.map elog)
  Tensor.binOp (· - ·) log_unnormalized_prob log_normalization

/-- Embeds `DoublesidedMaxwell._mean`: `loc * ones_like(scale)`. -/
def _mean (loc scale : Tensor ℝ) : Tensor ℝ :=
  Tensor.binOp (· * ·) loc (ones_like scale)

/-- Embeds `DoublesidedMaxwell._stddev`:
`sqrt(3) * scale * ones_like(loc)`. -/
noncomputable def _stddev (loc scale : Tensor ℝ) : Tensor ℝ :=
  Tensor.binOp (· * ·)
    (Tensor.binOp (· * ·) (Tensor.scalar (Real.sqrt 3)) scale)
    (ones_like loc)

/-- A sub-seed emitted by a seed stream: fully determined by the root
seed, the salt, and how many draws preceded it. -/
structure SubSeed where
  root : Nat
  salt : String
  counter : Nat
deriving DecidableEq

/-- Modelled from the spec: the seed-stream abstraction of the
repository's `util/seed_stream.py` module (not under `src/`): "given a
base seed and a salt label, yields successive deterministic sub-seeds".
The stream is stateful and sequential; each call emits the sub-seed
determined by (root seed, salt, number of previous calls) and advances. -/
structure SeedStream where
  seed : Nat
  salt : String
  counter : Nat

/-- Construct a fresh stream, `SeedStream(seed, salt=...)`. -/
def SeedStream.init (seed : Nat) (salt : String) : SeedStream :=
  ⟨seed, salt, 0⟩

/-- One call `seed()` on the stream: emit the current sub-seed, advance. -/
def SeedStream.call (s : SeedStream) : SubSeed × SeedStream :=
  (⟨s.seed, s.salt, s.counter⟩, ⟨s.seed, s.salt, s.counter + 1⟩)

/-- Embeds `DoublesidedMaxwell._batch_shape_tensor`: the runtime
broadcast of the parameter shapes (at runtime shapes are always known;
incompatibility is a TF runtime error, guarded by hypotheses here). -/
def _batch_shape_tensor (loc scale : Tensor ℝ) : Shape :=
  (broadcastShapes loc.shape scale.shape).getD []

/-- Embeds `DoublesidedMaxwell._sample_n`. The external random-variate
primitives `tf.random.normal` and `tfp.math.random_rademacher` are taken
as parameters mapping a requested shape and a sub-seed to a tensor of
draws. The code pads the batch shape to `[n] + batch_shape`, draws one
normal tensor of shape `[n] + batch_shape + [3]` with the stream's first
sub-seed, norms away the last axis, draws the random sign with the
stream's second sub-seed, and returns
`random_sign * maxwell_rvs * scale + loc`. -/
noncomputable def _sample_n (normal rademacher : Shape → SubSeed → Tensor ℝ)
    (loc scale : Tensor ℝ) (n : Nat) (seed0 : Nat) : Tensor ℝ :=
  let seed := SeedStream.init seed0 "DoublesidedMaxwell"
  let shape := n :: _batch_shape_tensor loc scale
  let p1 := seed.call
  let norm_rvs := normal (shape ++ [3]) p1.1
  let maxwell_rvs := norm_rvs.normLastAxis
  let p2 := p1.2.call
  let random_sign := rademacher shape p2.1
  Tensor.binOp (· + ·)
    (Tensor.binOp (· * ·) (Tensor.binOp (· * ·) random_sign maxwell_rvs) scale)
    loc

/-- Hypothetical variant of `_sample_n` with the two seed-stream draws
swapped: the Rademacher sign consumes the first sub-seed and the normal
draws the second. Used only to compare outputs against `_sample_n`. -/
noncomputable def _sample_n_swapped (normal rademacher : Shape → SubSeed → Tensor ℝ)
    (loc scale : Tensor ℝ) (n : Nat) (seed0 : Nat) : Tensor ℝ :=
  let seed := SeedStream.init seed0 "DoublesidedMaxwell"
  let shape := n :: _batch_shape_tensor loc scale
  let p1 := seed.call
  let random_sign := rademacher shape p1.1
  let p2 := p1.2.call
  let norm_rvs := normal (shape ++ [3]) p2.1
  let maxwell_rvs := norm_rvs.normLastAxis
  Tensor.binOp (· + ·)
    (Tensor.binOp (· * ·) (Tensor.binOp (· * ·) random_sign maxwell_rvs) scale)
    loc

/-- A runtime assertion produced by the parameter-validation hook
(`assert_util.assert_positive(scale, ...)`). -/
inductive Assertion where
  | scalePositive
deriving DecidableEq

/-- The construction-time error of the validation hook: the `ValueError`
raised when `loc` and `scale` have statically known, broadcast-incompatible
shapes; it carries (names) both shapes. -/
inductive CtorError where
  | shapeError (locShape scaleShape : Shape)
deriving DecidableEq

/-- The assertion list built by the tail of
`_parameter_control_dependencies`: empty when `validate_args` is off,
otherwise `assert_positive(scale)` exactly when `is_init != is_ref(scale)`. -/
def validationAssertions (scale_is_ref validate_args is_init : Bool) :
    List Assertion :=
  if !validate_args then []
  else if is_init != scale_is_ref then [Assertion.scalePositive]
  else []

/-- Embeds `DoublesidedMaxwell._parameter_control_dependencies`. Static
parameter shapes are `Option Shape` (`none` = not statically known). On
`is_init`, the broadcast of statically known shapes is attempted first
(`self._batch_shape()`), regardless of `validate_args`, raising the shape
error on incompatibility; then the assertion list is returned. -/
def _parameter_control_dependencies (locShape scaleShape : Option Shape)
    (scale_is_ref validate_args is_init : Bool) :
    Except CtorError (List Assertion) :=
  match is_init, locShape, scaleShape with
  | true, some ls, some ss =>
    match broadcastShapes ls ss with
    | none => .error (.shapeError ls ss)
    | some _ => .ok (validationAssertions scale_is_ref validate_args is_init)
  | _, _, _ => .ok (validationAssertions scale_is_ref validate_args is_init)

/-! Lemmas about dimension broadcasting. -/

lemma broadcastDim_self (a : Nat) : broadcastDim a a = some a := by
  simp [broadcastDim]

lemma broadcastDim_comm (a b : Nat) : broadcastDim a b = broadcastDim b a := by
  unfold broadcastDim
  split_ifs <;> simp_all

lemma broadcastDim_absorb {a b c : Nat} (h : broadcastDim a b = some c) :
    broadcastDim c b = some c := by
  unfold broadcastDim at h ⊢
  split_ifs at h ⊢ <;> simp_all

lemma broadcastDim_absorb_left {a b c : Nat} (h : broadcastDim a b = some c) :
    broadcastDim a c = some c := by
  unfold broadcastDim at h ⊢
  split_ifs at h ⊢ <;> simp_all

lemma broadcastDim_sub {a b c : Nat} (h : broadcastDim a b = some c) :
    (a = c ∨ a = 1) ∧ (b = c ∨ b = 1) := by
  unfold broadcastDim at h
  split_ifs at h <;> simp_all

lemma broadcastDim_chain {l s b x r : Nat} (h1 : broadcastDim l s = some b)
    (h2 : broadcastDim x b = some r) :
    ∃ m, broadcastDim x l = some m ∧ broadcastDim m s = some r := by
  refine ⟨(broadcastDim x l).getD 0, ?_, ?_⟩ <;>
    · unfold broadcastDim at h1 h2 ⊢
      split_ifs at h1 h2 ⊢ <;> simp_all

/-! Lemmas about shape broadcasting (reversed form). -/

lemma broadcastRevShapes_self (s : List Nat) : broadcastRevShapes s s = some s := by
  induction s with
  | nil => rfl
  | cons a s ih => simp [broadcastRevShapes, broadcastDim_self, ih]

lemma broadcastRevShapes_nil_right (s : List Nat) :
    broadcastRevShapes s [] = some s := by
  cases s <;> rfl

lemma broadcastRevShapes_comm (s t : List Nat) :
    broadcastRevShapes s t = broadcastRevShapes t s := by
  induction s generalizing t with
  | nil => cases t <;> rfl
  | cons a s ih =>
    cases t with
    | nil => rfl
    | cons b t => simp [broadcastRevShapes, broadcastDim_comm a b, ih t]

lemma broadcastRevShapes_length {s t r : List Nat}
    (h : broadcastRevShapes s t = some r) :
    s.length ≤ r.length ∧ t.length ≤ r.length := by
  induction s generalizing t r with
  | nil =>
    simp only [broadcastRevShapes] at h
    cases h
    simp
  | cons a s ih =>
    cases t with
    | nil =>
      simp only [broadcastRevShapes] at h
      cases h
      simp
    | cons b t =>
      cases hd : broadcastDim a b with
      | none => simp [broadcastRevShapes, hd] at h
      | some d =>
        cases hr : broadcastRevShapes s t with
        | none => simp [broadcastRevShapes, hd, hr] at h
        | some rs =>
          simp only [broadcastRevShapes, hd, hr] at h
          cases h
          have := ih hr
          simp
          omega

lemma broadcastRevShapes_absorb {s t r : List Nat}
    (h : broadcastRevShapes s t = some r) :
    broadcastRevShapes r t = some r := by
  induction s generalizing t r with
  | nil =>
    simp only [broadcastRevShapes] at h
    cases h
    exact broadcastRevShapes_self t
  | cons a s ih =>
    cases t with
    | nil =>
      simp only [broadcastRevShapes] at h
      cases h
      exact broadcastRevShapes_nil_right _
    | cons b t =>
      cases hd : broadcastDim a b with
      | none => simp [broadcastRevShapes, hd] at h
      | some d =>
        cases hr : broadcastRevShapes s t with
        | none => simp [broadcastRevShapes, hd, hr] at h
        | some rs =>
          simp only [broadcastRevShapes, hd, hr] at h
          cases h
          simp [broadcastRevShapes, broadcastDim_absorb hd, ih hr]

lemma broadcastRevShapes_absorb_left {s t r : List Nat}
    (h : broadcastRevShapes s t = some r) :
    broadcastRevShapes s r = some r := by
  induction s generalizing t r with
  | nil =>
    simp only [broadcastRevShapes] at h
    cases h
    rfl
  | cons a s ih =>
    cases t with
    | nil =>
      simp only [broadcastRevShapes] at h
      cases h
      exact broadcastRevShapes_self _
    | cons b t =>
      cases hd : broadcastDim a b with
      | none => simp [broadcastRevShapes, hd] at h
      | some d =>
        cases hr : broadcastRevShapes s t with
        | none => simp [broadcastRevShapes, hd, hr] at h
        | some rs =>
          simp only [broadcastRevShapes, hd, hr] at h
          cases h
          simp [broadcastRevShapes, broadcastDim_absorb_left hd, ih hr]

lemma broadcastRevShapes_append {s t r : List Nat} (x : Nat)
    (h : broadcastRevShapes s t = some r) (hlen : t.length ≤ s.length) :
    broadcastRevShapes (s ++ [x]) t = some (r ++ [x]) := by
  induction s generalizing t r with
  | nil =>
    cases t with
    | nil =>
      simp only [broadcastRevShapes] at h
      cases h
      rfl
    | cons b t => simp at hlen
  | cons a s ih =>
    cases t with
    | nil =>
      simp only [broadcastRevShapes] at h
      cases h
      exact broadcastRevShapes_nil_right _
    | cons b t =>
      cases hd : broadcastDim a b with
      | none => simp [broadcastRevShapes, hd] at h
      | some d =>
        cases hr : broadcastRevShapes s t with
        | none => simp [broadcastRevShapes, hd, hr] at h
        | some rs =>
          simp only [broadcastRevShapes, hd, hr] at h
          cases h
          simp only [List.cons_append]
          have hlen' : t.length ≤ s.length := by simpa using hlen
          simp [broadcastRevShapes, hd, ih hr hlen']

lemma broadcastRevShapes_chain {l s b x r : List Nat}
    (h1 : broadcastRevShapes l s = some b)
    (h2 : broadcastRevShapes x b = some r) :
    ∃ m, broadcastRevShapes x l = some m ∧ broadcastRevShapes m s = some r := by
  induction x generalizing l s b r with
  | nil =>
    simp only [broadcastRevShapes] at h2
    cases h2
    exact ⟨l, rfl, h1⟩
  | cons a x ih =>
    cases l with
    | nil =>
      simp only [broadcastRevShapes] at h1
      cases h1
      exact ⟨a :: x, broadcastRevShapes_nil_right _, h2⟩
    | cons c l =>
      cases s with
      | nil =>
        simp only [broadcastRevShapes] at h1
        cases h1
        exact ⟨r, h2, broadcastRevShapes_nil_right _⟩
      | cons e s =>
        cases hd : broadcastDim c e with
        | none => simp [broadcastRevShapes, hd] at h1
        | some d =>
          cases hb : broadcastRevShapes l s with
          | none => simp [broadcastRevShapes, hd, hb] at h1
          | some bs =>
            simp only [broadcastRevShapes, hd, hb] at h1
            cases h1
            cases hxd : broadcastDim a d with
            | none => simp [broadcastRevShapes, hxd] at h2
            | some r0 =>
              cases hxs : broadcastRevShapes x bs with
              | none => simp [broadcastRevShapes, hxd, hxs] at h2
              | some rs =>
                simp only [broadcastRevShapes, hxd, hxs] at h2
                cases h2
                obtain ⟨m0, hm1, hm2⟩ := broadcastDim_chain hd hxd
                obtain ⟨ms, hms1, hms2⟩ := ih hb hxs
                exact ⟨m0 :: ms, by simp [broadcastRevShapes, hm1, hms1],
                  by simp [broadcastRevShapes, hm2, hms2]⟩

/-! Lemmas about shape broadcasting (standard order). -/

lemma broadcastShapes_eq_some {s t r : Shape} :
    broadcastShapes s t = some r ↔
      broadcastRevShapes s.reverse t.reverse = some r.reverse := by
  unfold broadcastShapes
  cases h : broadcastRevShapes s.reverse t.reverse with
  | none => simp
  | some u =>
    simp only [Option.map_some', Option.some.injEq]
    constructor <;> rintro rfl <;> simp

lemma broadcastShapes_self (s : Shape) : broadcastShapes s s = some s := by
  rw [broadcastShapes_eq_some]
  exact broadcastRevShapes_self _

lemma broadcastShapes_comm (s t : Shape) :
    broadcastShapes s t = broadcastShapes t s := by
  unfold broadcastShapes
  rw [broadcastRevShapes_comm]

lemma broadcastShapes_nil_left (t : Shape) : broadcastShapes [] t = some t := by
  rw [broadcastShapes_eq_some]
  rfl

lemma broadcastShapes_nil_right (s : Shape) : broadcastShapes s [] = some s := by
  rw [broadcastShapes_eq_some]
  exact broadcastRevShapes_nil_right _

lemma broadcastShapes_absorb {s t r : Shape}
    (h : broadcastShapes s t = some r) : broadcastShapes r t = some r := by
  rw [broadcastShapes_eq_some] at h ⊢
  exact broadcastRevShapes_absorb h

lemma broadcastShapes_absorb_left {s t r : Shape}
    (h : broadcastShapes s t = some r) : broadcastShapes s r = some r := by
  rw [broadcastShapes_eq_some] at h ⊢
  exact broadcastRevShapes_absorb_left h

lemma broadcastShapes_chain {l s b x r : Shape}
    (h1 : broadcastShapes l s = some b) (h2 : broadcastShapes x b = some r) :
    ∃ m, broadcastShapes x l = some m ∧ broadcastShapes m s = some r := by
  rw [broadcastShapes_eq_some] at h1 h2
  obtain ⟨mrev, hm1, hm2⟩ := broadcastRevShapes_chain h1 h2
  refine ⟨mrev.reverse, ?_, ?_⟩ <;> rw [broadcastShapes_eq_some, List.reverse_reverse]
  · exact hm1
  · exact hm2

lemma broadcastShapes_cons {s t : Shape} (n : Nat)
    (h : broadcastShapes s t = some s) :
    broadcastShapes (n :: s) t = some (n :: s) := by
  rw [broadcastShapes_eq_some] at h ⊢
  have hlen := (broadcastRevShapes_length h).2
  simp only [List.reverse_cons]
  exact broadcastRevShapes_append n h (by simpa using hlen)

/-! Index projection lemmas. -/

/-- `subRev a c = true` (both reversed) means every dimension of `a`
either matches the aligned dimension of `c` or is 1, i.e. a tensor of
shape `a` broadcasts into shape `c` without changing `c`. -/
def subRev : List Nat → List Nat → Bool
  | [], _ => true
  | _ :: _, [] => false
  | a :: s, c :: t => (a == c || a == 1) && subRev s t

lemma subRev_refl (s : List Nat) : subRev s s = true := by
  induction s with
  | nil => rfl
  | cons a s ih => simp [subRev, ih]

lemma broadcastRevShapes_subRev {s t r : List Nat}
    (h : broadcastRevShapes s t = some r) :
    subRev s r = true ∧ subRev t r = true := by
  induction s generalizing t r with
  | nil =>
    simp only [broadcastRevShapes] at h
    cases h
    exact ⟨rfl, subRev_refl _⟩
  | cons a s ih =>
    cases t with
    | nil =>
      simp only [broadcastRevShapes] at h
      cases h
      exact ⟨subRev_refl _, rfl⟩
    | cons b t =>
      cases hd : broadcastDim a b with
      | none => simp [broadcastRevShapes, hd] at h
      | some d =>
        cases hr : broadcastRevShapes s t with
        | none => simp [broadcastRevShapes, hd, hr] at h
        | some rs =>
          simp only [broadcastRevShapes, hd, hr] at h
          cases h
          have hsub := broadcastDim_sub hd
          have hi := ih hr
          constructor <;> simp [subRev, hi.1, hi.2] <;> omega

lemma projRev_comp {a c : List Nat} (h : subRev a c = true) (i : List Nat) :
    projRev a (projRev c i) = projRev a i := by
  induction a generalizing c i with
  | nil => rfl
  | cons d as ih =>
    cases c with
    | nil => simp [subRev] at h
    | cons e cs =>
      simp only [subRev, Bool.and_eq_true, Bool.or_eq_true, beq_iff_eq] at h
      cases i with
      | nil =>
        simp only [projRev, ih h.2]
        congr 1
        rcases h.1 with he | h1
        · simp
        · simp [h1]
      | cons j is =>
        simp only [projRev, ih h.2]
        congr 1
        rcases h.1 with he | h1
        · subst he
          by_cases hd1 : d = 1 <;> simp [hd1]
        · simp [h1]

lemma projRev_valid {i s : List Nat} (h : validIdxRev i s = true) :
    projRev s i = i := by
  induction i generalizing s with
  | nil =>
    cases s with
    | nil => rfl
    | cons d ds => simp [validIdxRev] at h
  | cons j is ih =>
    cases s with
    | nil => simp [validIdxRev] at h
    | cons d ds =>
      simp only [validIdxRev, Bool.and_eq_true, decide_eq_true_eq] at h
      obtain ⟨h1, h2⟩ := h
      simp only [projRev, ih h2]
      congr 1
      by_cases hd1 : d = 1
      · subst hd1
        simp
        omega
      · simp [hd1]

/-! Lemmas about tensor reads. -/

lemma Tensor.readB_self {α : Type} (t : Tensor α) {idx : List Nat}
    (h : validIdx idx t.shape = true) : t.readB idx = t.val idx := by
  unfold Tensor.readB
  rw [projRev_valid h, List.reverse_reverse]

lemma Tensor.readB_proj {α : Type} (t : Tensor α) {c : Shape}
    (h : subRev t.shape.reverse c.reverse = true) (idx : List Nat) :
    t.readB ((projRev c.reverse idx.reverse).reverse) = t.readB idx := by
  unfold Tensor.readB
  rw [List.reverse_reverse, projRev_comp h]

lemma Tensor.readB_map {α β : Type} (f : α → β) (t : Tensor α)
    (idx : List Nat) : (t.map f).readB idx = f (t.readB idx) := rfl

lemma Tensor.readB_scalar {α : Type} (c : α) (idx : List Nat) :
    (Tensor.scalar c).readB idx = c := rfl

lemma Tensor.binOp_shape {α : Type} (f : α → α → α) {a b : Tensor α} {c : Shape}
    (h : broadcastShapes a.shape b.shape = some c) :
    (Tensor.binOp f a b).shape = c := by
  simp [Tensor.binOp, h]

lemma Tensor.binOp_val {α : Type} (f : α → α → α) (a b : Tensor α)
    (idx : List Nat) :
    (Tensor.binOp f a b).val idx = f (a.readB idx) (b.readB idx) := rfl

lemma Tensor.readB_eq {α : Type} (t : Tensor α) (idx : List Nat) :
    t.readB idx = t.val ((projRev t.shape.reverse idx.reverse).reverse) := rfl

lemma Tensor.readB_binOp {α : Type} (f : α → α → α) (a b : Tensor α) {c : Shape}
    (hc : broadcastShapes a.shape b.shape = some c) (idx : List Nat) :
    (Tensor.binOp f a b).readB idx = f (a.readB idx) (b.readB idx) := by
  have hsubs := broadcastRevShapes_subRev (broadcastShapes_eq_some.mp hc)
  rw [Tensor.readB_eq (Tensor.binOp f a b) idx, Tensor.binOp_shape f hc,
    Tensor.binOp_val, Tensor.readB_proj a hsubs.1, Tensor.readB_proj b hsubs.2]

lemma Tensor.readB_square (t : Tensor ℝ) (idx : List Nat) :
    (Tensor.square t).readB idx = t.readB idx * t.readB idx := rfl

/-- Master lemma: with `b` the batch shape (broadcast of the parameter
shapes) and `s` the broadcast of the input shape against `b`, `_log_prob`
has shape `s` and, elementwise, the closed-form value of the spec. -/
lemma log_prob_spec (loc scale x : Tensor ℝ) {b s : Shape}
    (hb : broadcastShapes loc.shape scale.shape = some b)
    (hx : broadcastShapes x.shape b = some s)
    (idx : List Nat) :
    (_log_prob loc scale x).shape = s ∧
    (_log_prob loc scale x).val idx =
      (((-0.5 * (((x.readB idx - loc.readB idx) / scale.readB idx) *
          ((x.readB idx - loc.readB idx) / scale.readB idx)) : ℝ) : EReal)
        + elog (((x.readB idx - loc.readB idx) / scale.readB idx) *
            ((x.readB idx - loc.readB idx) / scale.readB idx)))
      - (((0.5 * Real.log (2 * Real.pi) : ℝ) : EReal) + elog (scale.readB idx)) := by
  obtain ⟨m, hm1, hm2⟩ := broadcastShapes_chain hb hx
  have hzc : broadcastShapes (Tensor.binOp (· - ·) x loc).shape scale.shape
      = some s := by
    rw [Tensor.binOp_shape _ hm1]
    exact hm2
  have hzShape : (_z loc scale x).shape = s := Tensor.binOp_shape _ hzc
  have hcLun : broadcastShapes
      ((Tensor.square (_z loc scale x)).map (fun v => ((-0.5 * v : ℝ) : EReal))).shape
      ((Tensor.square (_z loc scale x)).map elog).shape = some s := by
    show broadcastShapes (_z loc scale x).shape (_z loc scale x).shape = some s
    rw [hzShape]
    exact broadcastShapes_self s
  have hcLnorm : broadcastShapes
      (Tensor.scalar ((0.5 * Real.log (2 * Real.pi) : ℝ) : EReal)).shape
      (scale.map elog).shape = some scale.shape := broadcastShapes_nil_left _
  have hreadZ : (_z loc scale x).readB idx
      = (x.readB idx - loc.readB idx) / scale.readB idx := by
    show (Tensor.binOp (· / ·) (Tensor.binOp (· - ·) x loc) scale).readB idx = _
    rw [Tensor.readB_binOp _ _ _ hzc idx, Tensor.readB_binOp _ _ _ hm1 idx]
  constructor
  · simp only [_log_prob]
    refine Tensor.binOp_shape _ ?_
    rw [Tensor.binOp_shape _ hcLun, Tensor.binOp_shape _ hcLnorm]
    exact broadcastShapes_absorb hm2
  · simp only [_log_prob]
    rw [Tensor.binOp_val, Tensor.readB_binOp _ _ _ hcLun idx,
      Tensor.readB_binOp _ _ _ hcLnorm idx, Tensor.readB_map, Tensor.readB_map,
      Tensor.readB_map, Tensor.readB_scalar, Tensor.readB_square, hreadZ]

lemma elog_zero : elog 0 = ⊥ := by simp [elog]

lemma elog_pos {x : ℝ} (h : 0 < x) : elog x = ((Real.log x : ℝ) : EReal) := by
  rw [elog, if_neg h.ne']

/-- C1: for every input `x` broadcastable against the batch shape,
`log_prob(x)` returns, elementwise over the broadcast shape `s` of `x`,
`loc` and `scale`, the value `(-0.5*z^2 + log(z^2)) - (0.5*log(2*pi) +
log(scale))` with `z = (x - loc)/scale`, and the result has shape `s`. -/
theorem C1_log_prob_formula (loc scale x : Tensor ℝ) (b s : Shape)
    (hb : broadcastShapes loc.shape scale.shape = some b)
    (hx : broadcastShapes x.shape b = some s)
    (idx : List Nat) (hidx : validIdx idx s = true) :
    (_log_prob loc scale x).shape = s ∧
    (_log_prob loc scale x).val idx =
      (((-0.5 * ((x.readB idx - loc.readB idx) / scale.readB idx) ^ 2 : ℝ) : EReal)
        + elog (((x.readB idx - loc.readB idx) / scale.readB idx) ^ 2))
      - (((0.5 * Real.log (2 * Real.pi) : ℝ) : EReal) + elog (scale.readB idx)) := by
  have h := log_prob_spec loc scale x hb hx idx
  refine ⟨h.1, ?_⟩
  rw [h.2]
  simp only [pow_two]

/-- Witness for C1: `loc = [1, 2]`, `scale = [11, 22]`, `x = [0, 1.5]`,
batch shape `[2]`, index `[0]`. -/
theorem C1_log_prob_formula_witness :
    (_log_prob (vec [1, 2]) (vec [11, 22]) (vec [0, 1.5])).shape = [2] ∧
    (_log_prob (vec [1, 2]) (vec [11, 22]) (vec [0, 1.5])).val [0] =
      (((-0.5 * (((vec [0, 1.5]).readB [0] - (vec [1, 2]).readB [0])
            / (vec [11, 22]).readB [0]) ^ 2 : ℝ) : EReal)
        + elog ((((vec [0, 1.5]).readB [0] - (vec [1, 2]).readB [0])
            / (vec [11, 22]).readB [0]) ^ 2))
      - (((0.5 * Real.log (2 * Real.pi) : ℝ) : EReal)
          + elog ((vec [11, 22]).readB [0])) :=
  C1_log_prob_formula (vec [1, 2]) (vec [11, 22]) (vec [0, 1.5]) [2] [2]
    rfl rfl [0] rfl

/-- C8: for every `loc` and every `scale` positive at the inspected batch
position, `log_prob(loc)` evaluates to negative infinity there. -/
theorem C8_log_prob_at_loc (loc scale : Tensor ℝ) (b : Shape)
    (hb : broadcastShapes loc.shape scale.shape = some b)
    (idx : List Nat) (hidx : validIdx idx b = true)
    (hpos : 0 < scale.readB idx) :
    (_log_prob loc scale loc).val idx = ⊥ := by
  have hx : broadcastShapes loc.shape b = some b := broadcastShapes_absorb_left hb
  have h := (log_prob_spec loc scale loc hb hx idx).2
  rw [h, sub_self, zero_div, mul_zero, mul_zero, elog_zero, elog_pos hpos,
    EReal.coe_zero, zero_add, EReal.bot_sub]

/-- Witness for C8: scalar `loc = 1`, `scale = 2`. -/
theorem C8_log_prob_at_loc_witness :
    (0 : ℝ) < (Tensor.scalar (2 : ℝ)).readB [] ∧
    (_log_prob (Tensor.scalar 1) (Tensor.scalar 2) (Tensor.scalar 1)).val [] = ⊥ :=
  ⟨by norm_num [Tensor.readB_scalar],
   C8_log_prob_at_loc (Tensor.scalar 1) (Tensor.scalar 2) [] rfl [] rfl
     (by norm_num [Tensor.readB_scalar])⟩

/-- C9: the density is symmetric about `loc`: for every real `d`,
`log_prob(loc + d)` and `log_prob(loc - d)` agree elementwise (hence so
do `prob(loc + d)` and `prob(loc - d)`). -/
theorem C9_symmetry (loc scale : Tensor ℝ) (d : ℝ) (b : Shape)
    (hb : broadcastShapes loc.shape scale.shape = some b)
    (idx : List Nat) (hidx : validIdx idx b = true)
    (hpos : 0 < scale.readB idx) :
    (_log_prob loc scale (Tensor.binOp (· + ·) loc (Tensor.scalar d))).val idx =
    (_log_prob loc scale (Tensor.binOp (· - ·) loc (Tensor.scalar d))).val idx := by
  have hx : broadcastShapes loc.shape b = some b := broadcastShapes_absorb_left hb
  have hplus : broadcastShapes
      (Tensor.binOp (· + ·) loc (Tensor.scalar d)).shape b = some b := by
    rw [Tensor.binOp_shape _ (broadcastShapes_nil_right loc.shape)]
    exact hx
  have hminus : broadcastShapes
      (Tensor.binOp (· - ·) loc (Tensor.scalar d)).shape b = some b := by
    rw [Tensor.binOp_shape _ (broadcastShapes_nil_right loc.shape)]
    exact hx
  have h1 := (log_prob_spec loc scale _ hb hplus idx).2
  have h2 := (log_prob_spec loc scale _ hb hminus idx).2
  have hr1 : (Tensor.binOp (· + ·) loc (Tensor.scalar d)).readB idx
      = loc.readB idx + d := by
    rw [Tensor.readB_binOp _ _ _ (broadcastShapes_nil_right loc.shape) idx,
      Tensor.readB_scalar]
  have hr2 : (Tensor.binOp (· - ·) loc (Tensor.scalar d)).readB idx
      = loc.readB idx - d := by
    rw [Tensor.readB_binOp _ _ _ (broadcastShapes_nil_right loc.shape) idx,
      Tensor.readB_scalar]
  rw [h1, h2, hr1, hr2]
  have e1 : (loc.readB idx + d - loc.readB idx) / scale.readB idx
      * ((loc.readB idx + d - loc.readB idx) / scale.readB idx)
      = (loc.readB idx - d - loc.readB idx) / scale.readB idx
      * ((loc.readB idx - d - loc.readB idx) / scale.readB idx) := by
    ring
  rw [e1]

/-- Witness for C9: scalar `loc = 0`, `scale = 1`, `d = 5`. -/
theorem C9_symmetry_witness :
    (0 : ℝ) < (Tensor.scalar (1 : ℝ)).readB [] ∧
    (_log_prob (Tensor.scalar 0) (Tensor.scalar 1)
        (Tensor.binOp (· + ·) (Tensor.scalar 0) (Tensor.scalar 5))).val [] =
    (_log_prob (Tensor.scalar 0) (Tensor.scalar 1)
        (Tensor.binOp (· - ·) (Tensor.scalar 0) (Tensor.scalar 5))).val [] :=
  ⟨by norm_num [Tensor.readB_scalar],
   C9_symmetry (Tensor.scalar 0) (Tensor.scalar 1) 5 [] rfl [] rfl
     (by norm_num [Tensor.readB_scalar])⟩

/-- C4: `mean()` is `loc` broadcast to the full batch shape, and
`stddev()` is `sqrt(3) * scale` broadcast to the full batch shape. -/
theorem C4_mean_stddev (loc scale : Tensor ℝ) (b : Shape)
    (hb : broadcastShapes loc.shape scale.shape = some b)
    (idx : List Nat) (hidx : validIdx idx b = true) :
    (_mean loc scale).shape = b ∧
    (_mean loc scale).val idx = loc.readB idx ∧
    (_stddev loc scale).shape = b ∧
    (_stddev loc scale).val idx = Real.sqrt 3 * scale.readB idx := by
  have hinner : (Tensor.binOp (· * ·) (Tensor.scalar (Real.sqrt 3)) scale).shape
      = scale.shape := Tensor.binOp_shape _ (broadcastShapes_nil_left scale.shape)
  refine ⟨Tensor.binOp_shape _ hb, ?_, ?_, ?_⟩
  · show loc.readB idx * (1 : ℝ) = loc.readB idx
    exact mul_one _
  · refine Tensor.binOp_shape _ ?_
    rw [hinner]
    show broadcastShapes scale.shape loc.shape = some b
    rw [broadcastShapes_comm]
    exact hb
  · show (Tensor.binOp (· * ·) (Tensor.scalar (Real.sqrt 3)) scale).readB idx
        * (1 : ℝ) = Real.sqrt 3 * scale.readB idx
    rw [mul_one,
      Tensor.readB_binOp _ _ _ (broadcastShapes_nil_left scale.shape) idx,
      Tensor.readB_scalar]

/-- Witness for C4: `loc = [1, 2]`, `scale = [11, 22]` give
`mean() == [1, 2]` and `stddev() == sqrt(3) * [11, 22]`. -/
theorem C4_mean_stddev_witness :
    (_mean (vec [1, 2]) (vec [11, 22])).val [0] = 1 ∧
    (_mean (vec [1, 2]) (vec [11, 22])).val [1] = 2 ∧
    (_stddev (vec [1, 2]) (vec [11, 22])).val [0] = Real.sqrt 3 * 11 ∧
    (_stddev (vec [1, 2]) (vec [11, 22])).val [1] = Real.sqrt 3 * 22 :=
  have h0 := C4_mean_stddev (vec [1, 2]) (vec [11, 22]) [2] rfl [0] rfl
  have h1 := C4_mean_stddev (vec [1, 2]) (vec [11, 22]) [2] rfl [1] rfl
  ⟨h0.2.1, h1.2.1, h0.2.2.2, h1.2.2.2⟩

/-- C10: `mean()` depends on `scale` only through its shape, and
`stddev()` depends on `loc` only through its shape: equal-shaped
replacements of the irrelevant parameter (whatever the values) leave the
result identical. -/
theorem C10_mean_stddev_independence :
    (∀ loc scale scale' : Tensor ℝ, scale.shape = scale'.shape →
      _mean loc scale = _mean loc scale') ∧
    (∀ loc loc' scale : Tensor ℝ, loc.shape = loc'.shape →
      _stddev loc scale = _stddev loc' scale) := by
  constructor
  · intro loc scale scale' h
    refine Tensor.ext ?_ ?_
    · show (broadcastShapes loc.shape scale.shape).getD []
          = (broadcastShapes loc.shape scale'.shape).getD []
      rw [h]
    · rfl
  · intro loc loc' scale h
    refine Tensor.ext ?_ ?_
    · show (broadcastShapes
          (Tensor.binOp (· * ·) (Tensor.scalar (Real.sqrt 3)) scale).shape
          loc.shape).getD []
        = (broadcastShapes
          (Tensor.binOp (· * ·) (Tensor.scalar (Real.sqrt 3)) scale).shape
          loc'.shape).getD []
      rw [h]
    · rfl

/-- Witness for C10: replacing `scale = [11, 22]` by the non-positive
`[-5, 0]` leaves `mean()` unchanged; replacing `loc = [1, 2]` by `[7, 8]`
leaves `stddev()` unchanged. -/
theorem C10_mean_stddev_independence_witness :
    _mean (vec [1, 2]) (vec [11, 22]) = _mean (vec [1, 2]) (vec [-5, 0]) ∧
    _stddev (vec [1, 2]) (vec [11, 22]) = _stddev (vec [7, 8]) (vec [11, 22]) :=
  ⟨C10_mean_stddev_independence.1 (vec [1, 2]) (vec [11, 22]) (vec [-5, 0]) rfl,
   C10_mean_stddev_independence.2 (vec [1, 2]) (vec [7, 8]) (vec [11, 22]) rfl⟩

lemma sum_range_three (f : Nat → ℝ) :
    ((List.range 3).map f).sum = f 0 + f 1 + f 2 := by
  simp [List.range_succ]
  ring

/-- C2: `sample(n, seed)` has shape `[n] + batch_shape` and each element
is `loc + scale * s * sqrt(g1^2 + g2^2 + g3^2)`, where the `g`s are the
three standard-normal draws (the three slices of the normal tensor drawn
with the stream's first sub-seed) and `s` is the Rademacher draw (second
sub-seed) at the same position. Quantified over arbitrary normal and
Rademacher generators that honour the requested shape. -/
theorem C2_sample_formula (normal rademacher : Shape → SubSeed → Tensor ℝ)
    (hn : ∀ sh sd, (normal sh sd).shape = sh)
    (hr : ∀ sh sd, (rademacher sh sd).shape = sh)
    (loc scale : Tensor ℝ) (n seed0 : Nat) (b : Shape)
    (hb : broadcastShapes loc.shape scale.shape = some b)
    (idx : List Nat) (hidx : validIdx idx (n :: b) = true) :
    (_sample_n normal rademacher loc scale n seed0).shape = n :: b ∧
    (_sample_n normal rademacher loc scale n seed0).val idx =
      loc.readB idx + scale.readB idx *
        ((rademacher (n :: b) ⟨seed0, "DoublesidedMaxwell", 1⟩).val idx *
          Real.sqrt
            ((normal ((n :: b) ++ [3]) ⟨seed0, "DoublesidedMaxwell", 0⟩).val
                (idx ++ [0]) ^ 2
              + (normal ((n :: b) ++ [3]) ⟨seed0, "DoublesidedMaxwell", 0⟩).val
                (idx ++ [1]) ^ 2
              + (normal ((n :: b) ++ [3]) ⟨seed0, "DoublesidedMaxwell", 0⟩).val
                (idx ++ [2]) ^ 2)) := by
  have hbt : _batch_shape_tensor loc scale = b := by
    rw [_batch_shape_tensor, hb]
    rfl
  have hform : _sample_n normal rademacher loc scale n seed0 =
      Tensor.binOp (· + ·)
        (Tensor.binOp (· * ·)
          (Tensor.binOp (· * ·)
            (rademacher (n :: b) ⟨seed0, "DoublesidedMaxwell", 1⟩)
            ((normal ((n :: b) ++ [3])
              ⟨seed0, "DoublesidedMaxwell", 0⟩).normLastAxis))
          scale)
        loc := by
    simp only [_sample_n, SeedStream.init, SeedStream.call, hbt, zero_add]
  set RS := rademacher (n :: b) ⟨seed0, "DoublesidedMaxwell", 1⟩ with hRS
  set NT := normal ((n :: b) ++ [3]) ⟨seed0, "DoublesidedMaxwell", 0⟩ with hNT
  have hrsShape : RS.shape = n :: b := hr _ _
  have hmxShape : NT.normLastAxis.shape = n :: b := by
    show NT.shape.dropLast = n :: b
    rw [hn]
    exact List.dropLast_concat
  have hc1 : broadcastShapes RS.shape NT.normLastAxis.shape = some (n :: b) := by
    rw [hrsShape, hmxShape]
    exact broadcastShapes_self _
  have hbscale : broadcastShapes b scale.shape = some b := broadcastShapes_absorb hb
  have hbloc : broadcastShapes b loc.shape = some b := by
    have h : broadcastShapes scale.shape loc.shape = some b := by
      rw [broadcastShapes_comm]
      exact hb
    exact broadcastShapes_absorb h
  have hc2 : broadcastShapes
      (Tensor.binOp (· * ·) RS NT.normLastAxis).shape scale.shape
      = some (n :: b) := by
    rw [Tensor.binOp_shape _ hc1]
    exact broadcastShapes_cons n hbscale
  have hc3 : broadcastShapes
      (Tensor.binOp (· * ·) (Tensor.binOp (· * ·) RS NT.normLastAxis) scale).shape
      loc.shape = some (n :: b) := by
    rw [Tensor.binOp_shape _ hc2]
    exact broadcastShapes_cons n hbloc
  have hmxVal : NT.normLastAxis.readB idx =
      Real.sqrt (NT.val (idx ++ [0]) ^ 2 + NT.val (idx ++ [1]) ^ 2
        + NT.val (idx ++ [2]) ^ 2) := by
    rw [Tensor.readB_self _ (by rw [hmxShape]; exact hidx)]
    show Real.sqrt (((List.range (NT.shape.getLastD 0)).map
      (fun k => NT.val (idx ++ [k]) ^ 2)).sum) = _
    rw [hn]
    rw [List.getLastD_concat]
    rw [sum_range_three]
  constructor
  · rw [hform]
    exact Tensor.binOp_shape _ hc3
  · rw [hform, Tensor.binOp_val, Tensor.readB_binOp _ _ _ hc2 idx,
      Tensor.readB_binOp _ _ _ hc1 idx,
      Tensor.readB_self RS (by rw [hrsShape]; exact hidx), hmxVal]
    ring

/-- Witness for C2: constant generators (normals all 0, signs all 1),
scalar `loc = 0`, `scale = 1`, `n = 1`, seed 0, index `[0]`. -/
theorem C2_sample_formula_witness :
    (_sample_n (fun sh _ => ⟨sh, fun _ => 0⟩) (fun sh _ => ⟨sh, fun _ => 1⟩)
      (Tensor.scalar 0) (Tensor.scalar 1) 1 0).shape = [1] ∧
    (_sample_n (fun sh _ => ⟨sh, fun _ => 0⟩) (fun sh _ => ⟨sh, fun _ => 1⟩)
      (Tensor.scalar 0) (Tensor.scalar 1) 1 0).val [0] =
      (Tensor.scalar 0).readB [0] + (Tensor.scalar 1).readB [0] *
        (((fun (sh : Shape) (_ : SubSeed) => (⟨sh, fun _ => 1⟩ : Tensor ℝ))
            [1] ⟨0, "DoublesidedMaxwell", 1⟩).val [0] *
          Real.sqrt
            (((fun (sh : Shape) (_ : SubSeed) => (⟨sh, fun _ => 0⟩ : Tensor ℝ))
                ([1] ++ [3]) ⟨0, "DoublesidedMaxwell", 0⟩).val ([0] ++ [0]) ^ 2
              + ((fun (sh : Shape) (_ : SubSeed) => (⟨sh, fun _ => 0⟩ : Tensor ℝ))
                ([1] ++ [3]) ⟨0, "DoublesidedMaxwell", 0⟩).val ([0] ++ [1]) ^ 2
              + ((fun (sh : Shape) (_ : SubSeed) => (⟨sh, fun _ => 0⟩ : Tensor ℝ))
                ([1] ++ [3]) ⟨0, "DoublesidedMaxwell", 0⟩).val ([0] ++ [2]) ^ 2)) :=
  C2_sample_formula (fun sh _ => ⟨sh, fun _ => 0⟩) (fun sh _ => ⟨sh, fun _ => 1⟩)
    (fun _ _ => rfl) (fun _ _ => rfl)
    (Tensor.scalar 0) (Tensor.scalar 1) 1 0 [] rfl [0] rfl

/-- C3: sampling derives its sub-seeds deterministically from the seed
plus the salt `"DoublesidedMaxwell"`, consuming the stream's first
sub-seed for the three normal draws and the second for the Rademacher
draw (first conjunct: the unfolding of `_sample_n`, exhibiting the two
sub-seeds); and swapping that order changes the output for the same seed
(second conjunct). -/
theorem C3_seed_order :
    (∀ normal rademacher : Shape → SubSeed → Tensor ℝ,
      ∀ (loc scale : Tensor ℝ) (n seed0 : Nat),
      _sample_n normal rademacher loc scale n seed0 =
        Tensor.binOp (· + ·)
          (Tensor.binOp (· * ·)
            (Tensor.binOp (· * ·)
              (rademacher (n :: _batch_shape_tensor loc scale)
                ⟨seed0, "DoublesidedMaxwell", 1⟩)
              ((normal ((n :: _batch_shape_tensor loc scale) ++ [3])
                ⟨seed0, "DoublesidedMaxwell", 0⟩).normLastAxis))
            scale)
          loc) ∧
    (∃ (normal rademacher : Shape → SubSeed → Tensor ℝ) (loc scale : Tensor ℝ)
      (n seed0 : Nat) (idx : List Nat),
      (_sample_n normal rademacher loc scale n seed0).val idx ≠
      (_sample_n_swapped normal rademacher loc scale n seed0).val idx) := by
  constructor
  · intro normal rademacher loc scale n seed0
    simp only [_sample_n, SeedStream.init, SeedStream.call, zero_add]
  · refine ⟨fun sh sd => ⟨sh, fun _ => if sd.counter = 0 then 1 else 0⟩,
      fun sh _ => ⟨sh, fun _ => 1⟩,
      Tensor.scalar 0, Tensor.scalar 1, 1, 0, [0], ?_⟩
    have hL : (_sample_n
        (fun sh sd => (⟨sh, fun _ => if sd.counter = 0 then 1 else 0⟩ : Tensor ℝ))
        (fun sh _ => ⟨sh, fun _ => 1⟩)
        (Tensor.scalar 0) (Tensor.scalar 1) 1 0).val [0] = Real.sqrt 3 := by
      simp [_sample_n, SeedStream.init, SeedStream.call, _batch_shape_tensor,
        broadcastShapes, broadcastRevShapes, broadcastDim, Tensor.binOp,
        Tensor.readB, Tensor.scalar, Tensor.normLastAxis, projRev,
        List.range_succ]
      norm_num
    have hR : (_sample_n_swapped
        (fun sh sd => (⟨sh, fun _ => if sd.counter = 0 then 1 else 0⟩ : Tensor ℝ))
        (fun sh _ => ⟨sh, fun _ => 1⟩)
        (Tensor.scalar 0) (Tensor.scalar 1) 1 0).val [0] = 0 := by
      simp [_sample_n_swapped, SeedStream.init, SeedStream.call,
        _batch_shape_tensor, broadcastShapes, broadcastRevShapes, broadcastDim,
        Tensor.binOp, Tensor.readB, Tensor.scalar, Tensor.normLastAxis, projRev,
        List.range_succ]
    rw [hL, hR]
    have := Real.sqrt_pos.mpr (by norm_num : (0:ℝ) < 3)
    exact this.ne'

/-- C5 counterexample: with `validate_args` disabled and statically known
incompatible shapes (`loc.shape = [2]`, `scale.shape = [3]`), the
construction-time hook still performs the shape-compatibility check and
fails with the shape error, so it is false that, with `validate_args`
disabled, no shape-compatibility check is performed and invalid
parameters never fail. -/
theorem C5_counterexample :
    _parameter_control_dependencies (some [2]) (some [3]) false false true
      = .error (.shapeError [2] [3]) := rfl

/-- C5 amended: when `validate_args` is disabled, no runtime assertions
are produced (scale positivity is never checked; invalid scale values
silently produce undefined output); however, the static
shape-compatibility check at construction runs regardless of
`validate_args`, so statically known incompatible shapes fail even with
validation disabled. -/
theorem C5_validate_args_disabled (ls ss : Option Shape) (sr ii : Bool) :
    _parameter_control_dependencies ls ss sr false ii = .ok [] ∨
    (ii = true ∧ ∃ a c, ls = some a ∧ ss = some c ∧
      broadcastShapes a c = none ∧
      _parameter_control_dependencies ls ss sr false ii
        = .error (.shapeError a c)) := by
  cases ii with
  | false =>
    left
    cases ls <;> cases ss <;> rfl
  | true =>
    cases ls with
    | none => exact Or.inl rfl
    | some a =>
      cases ss with
      | none => exact Or.inl rfl
      | some c =>
        cases h : broadcastShapes a c with
        | none =>
          right
          exact ⟨rfl, a, c, rfl, rfl, h,
            by simp [_parameter_control_dependencies, h]⟩
        | some r =>
          left
          simp [_parameter_control_dependencies, h, validationAssertions]

/-- C6: with validation enabled, positivity of `scale` is asserted at
construction exactly when `scale` is a fixed (non-ref) value, and on
each later parameter access exactly when `scale` is a deferred (ref)
value — never both. -/
theorem C6_scale_positivity_assertion (ls ss : Option Shape) (sr : Bool) :
    (∀ l, _parameter_control_dependencies ls ss sr true true = .ok l →
      (Assertion.scalePositive ∈ l ↔ sr = false)) ∧
    (∃ l, _parameter_control_dependencies ls ss sr true false = .ok l ∧
      (Assertion.scalePositive ∈ l ↔ sr = true)) := by
  have hval : ∀ ii : Bool, validationAssertions sr true ii
      = if ii != sr then [Assertion.scalePositive] else [] := by
    intro ii
    simp [validationAssertions]
  constructor
  · intro l hl
    cases ls with
    | none =>
      simp only [_parameter_control_dependencies, hval, Except.ok.injEq] at hl
      subst hl
      cases sr <;> simp
    | some a =>
      cases ss with
      | none =>
        simp only [_parameter_control_dependencies, hval, Except.ok.injEq] at hl
        subst hl
        cases sr <;> simp
      | some c =>
        cases h : broadcastShapes a c with
        | none => simp [_parameter_control_dependencies, h] at hl
        | some r =>
          simp only [_parameter_control_dependencies, h, hval,
            Except.ok.injEq] at hl
          subst hl
          cases sr <;> simp
  · refine ⟨validationAssertions sr true false, ?_, ?_⟩
    · cases ls <;> cases ss <;> rfl
    · rw [hval]
      cases sr <;> simp

/-- Witness for C6: fixed (non-ref) `scale` with compatible static shapes
`[2]`, `[2]`: the construction-time call yields the positivity assertion,
and the access-time call yields an assertion list without it. -/
theorem C6_scale_positivity_assertion_witness :
    (Assertion.scalePositive ∈ [Assertion.scalePositive] ↔ false = false) ∧
    (∃ l, _parameter_control_dependencies (some [2]) (some [2]) false true false
        = .ok l ∧ (Assertion.scalePositive ∈ l ↔ false = true)) :=
  ⟨(C6_scale_positivity_assertion (some [2]) (some [2]) false).1
      [Assertion.scalePositive] rfl,
   (C6_scale_positivity_assertion (some [2]) (some [2]) false).2⟩

/-- C7: if `loc` and `scale` have statically known broadcast-incompatible
shapes, construction fails with the error carrying both shapes (for any
`validate_args`); statically known compatible shapes do not fail; and if
either shape is not statically known, no shape check is performed at
construction (the hook returns assertions, never the shape error). -/
theorem C7_static_shape_check :
    (∀ (ls ss : Shape) (sr va : Bool), broadcastShapes ls ss = none →
      _parameter_control_dependencies (some ls) (some ss) sr va true
        = .error (.shapeError ls ss)) ∧
    (∀ (ls ss : Shape) (sr va : Bool) (c : Shape),
      broadcastShapes ls ss = some c →
      ∃ l, _parameter_control_dependencies (some ls) (some ss) sr va true
        = .ok l) ∧
    (∀ (ls ss : Option Shape) (sr va : Bool), ls = none ∨ ss = none →
      ∃ l, _parameter_control_dependencies ls ss sr va true = .ok l) := by
  refine ⟨?_, ?_, ?_⟩
  · intro ls ss sr va h
    simp [_parameter_control_dependencies, h]
  · intro ls ss sr va c h
    refine ⟨validationAssertions sr va true, ?_⟩
    simp [_parameter_control_dependencies, h]
  · rintro ls ss sr va (rfl | rfl)
    · cases ss <;> exact ⟨_, rfl⟩
    · cases ls <;> exact ⟨_, rfl⟩

/-- Witness for C7: statically known shapes `[2]` and `[5]` are
broadcast-incompatible and construction fails naming both. -/
theorem C7_static_shape_check_witness :
    _parameter_control_dependencies (some [2]) (some [5]) false true true
      = .error (.shapeError [2] [5]) :=
  C7_static_shape_check.1 [2] [5] false true rfl
